import Mathlib

/-!
Verification of the pga-dk feature-assembly pipeline (`utils/db_utils.py`,
`utils/schema.py`) against its natural-language specification.

The Python code is shallowly embedded: pandas/SQL row operations become pure
functions over lists of records, calendar dates become integer day numbers
(SQLite compares ISO date strings lexicographically, which agrees with the
chronological order that the integer model uses), numeric values parsed from
strings become rationals, and the floating-point `np.log1p` dampening factor is
modelled with the real logarithm.  External collaborators (HTTP fetching, the
HTML/regex scraping primitives, `pd.DateOffset` calendar arithmetic) are
modelled as explicit parameters or as outcome data types, exactly at the
boundary where the source hands their results to the core logic.
-/

namespace PgaDk

/-! ## Digit-run extraction (`update_tournament_results`, line 86)

`df["POS"].str.extract(r"(\d+)", expand=False).fillna(90).astype(int)`:
`Series.str.extract` performs a regex *search*, so it captures the first
(leftmost) maximal run of decimal digits anywhere in the string; rows with no
digits get the sentinel 90. -/

def digitsToNat (ds : List Char) : Nat :=
  ds.foldl (fun a c => 10 * a + (c.toNat - 48)) 0

/-- First maximal run of decimal digits in a character list, if any
(the semantics of a regex search for `(\d+)`). -/
def firstDigitRun : List Char → Option (List Char)
  | [] => none
  | c :: cs =>
    if c.isDigit then some (c :: cs.takeWhile Char.isDigit)
    else firstDigitRun cs

/-- `FINAL_POS` resolution of `update_tournament_results`: first digit run of
the raw position string, else the fixed sentinel 90. -/
def final_pos (s : String) : Nat :=
  match firstDigitRun s.data with
  | some ds => digitsToNat ds
  | none => 90

/-! ## Fractional-odds conversion (`import_historical_odds`, lines 495-501)

`clean_df["ODDS"].str.replace(",", "").str.extract(r"(\d+)/(\d+)")` followed by
`astype(float)` and an elementwise division.  A regex search for
`(\d+)/(\d+)` succeeds at the leftmost maximal digit run that is immediately
followed by `/` and a further digit; strings with no such pattern produce
`NaN`, which the subsequent division propagates — the row is *kept* with a
missing `VEGAS_ODDS` value (there is no `dropna` on `VEGAS_ODDS` afterwards). -/

def stripCommas (s : String) : List Char :=
  s.data.filter (fun c => c ≠ ',')

/-- Leftmost match of the regex `(\d+)/(\d+)`: numerator and denominator digit
runs.  A greedy `\d+` directly before `/` can only match the full maximal run,
so the search advances run by run.  Recursion is by fuel; every step strictly
shortens the list, so `fuel = length` makes the scan total and exact. -/
def fracScanAux : Nat → List Char → Option (Nat × Nat)
  | 0, _ => none
  | _ + 1, [] => none
  | fuel + 1, c :: rest =>
    if c.isDigit then
      match rest.dropWhile Char.isDigit with
      | '/' :: tail =>
        match tail with
        | d :: _ =>
          if d.isDigit then
            some (digitsToNat (c :: rest.takeWhile Char.isDigit),
                  digitsToNat (tail.takeWhile Char.isDigit))
          else fracScanAux fuel tail
        | [] => none
      | _ :: after => fracScanAux fuel after
      | [] => none
    else fracScanAux fuel rest

def fracScan (cs : List Char) : Option (Nat × Nat) :=
  fracScanAux cs.length cs

/-- Decimal odds for one raw odds string: thousands separators stripped, a
`numerator/denominator` pattern extracted, and the quotient taken.  `none`
models the `NaN` that pandas produces for a non-matching string. -/
def vegas_odds (s : String) : Option Rat :=
  (fracScan (stripCommas s)).map (fun nd => (nd.1 : Rat) / (nd.2 : Rat))

/-- One collected odds row (player name and raw odds string) before the
`VEGAS_ODDS` column is computed. -/
structure OddsRow where
  player : String
  odds : String
  deriving DecidableEq, Repr

/-- One odds row after the conversion step: the raw string is kept and the
decimal value is attached (missing when the pattern did not match). -/
structure OddsRowV where
  player : String
  odds : String
  vegasOdds : Option Rat
  deriving DecidableEq, Repr

/-- The `VEGAS_ODDS` assignment of `import_historical_odds`: every collected
row survives, each with its (possibly missing) decimal odds. -/
def attach_vegas_odds (rows : List OddsRow) : List OddsRowV :=
  rows.map (fun r => ⟨r.player, r.odds, vegas_odds r.odds⟩)

/-! `get_current_week_odds` (lines 939-946) instead splits on `/` and calls
`astype(float)` on the two component columns inside one `try`: if *any* entry
fails the float conversion the `except` branch nulls the whole `VEGAS_ODDS`
column; no row is dropped.  A missing second component is `NaN` (not an
error), and `NaN` propagates through the division. -/

/-- `str.split("/")` over a character list, accumulating the current
component in reverse. -/
def splitSlashAux : List Char → List Char → List (List Char)
  | [], acc => [acc.reverse]
  | c :: rest, acc =>
    if c = '/' then acc.reverse :: splitSlashAux rest []
    else splitSlashAux rest (c :: acc)

def splitSlash (s : String) : List (List Char) :=
  splitSlashAux s.data []

/-- Python `float()` applied to a split component: optional surrounding
spaces, then a nonempty digit run with an optional fractional part. -/
def parseFloatQ (cs0 : List Char) : Option Rat :=
  let cs := (cs0.dropWhile (fun c => c = ' ')).reverse.dropWhile (fun c => c = ' ') |>.reverse
  let intPart := cs.takeWhile Char.isDigit
  let rest := cs.dropWhile Char.isDigit
  if intPart = [] then none
  else
    match rest with
    | [] => some (digitsToNat intPart : Rat)
    | '.' :: fracs =>
      if fracs.all Char.isDigit then
        some ((digitsToNat intPart : Rat) + (digitsToNat fracs : Rat) / (10 : Rat) ^ fracs.length)
      else none
    | _ => none

/-- Whether `astype(float)` would raise on this odds string: the first `/`
component must parse, and a present second component must parse too
(a missing second component becomes `NaN`, which `astype(float)` accepts). -/
def splitFloatsOk (s : String) : Bool :=
  let parts := splitSlash s
  (parseFloatQ (parts.getD 0 [])).isSome &&
    (parts.length < 2 || (parseFloatQ (parts.getD 1 [])).isSome)

/-- Per-row decimal odds of the current-week path when no exception occurs;
`none` models the `NaN` of a missing denominator. -/
def splitVegas (s : String) : Option Rat :=
  let parts := splitSlash s
  match parseFloatQ (parts.getD 0 []), parts.drop 1 with
  | some n, d :: _ => (parseFloatQ d).map (fun q => n / q)
  | _, _ => none

/-- The current-week conversion: if every retained odds string float-converts,
each row gets its quotient; otherwise the entire column falls back to null.
Either way the rows themselves are all retained. -/
def current_week_vegas (rows : List String) : List (Option Rat) :=
  if rows.all splitFloatsOk then rows.map splitVegas
  else rows.map (fun _ => none)

/-! ## Temporal Feature Engine (`get_cut_and_fedex_history`,
`get_recent_avg_finish`, `get_course_history`)

One row of the `tournaments` table.  `ENDING_DATE` is an integer day number:
SQLite compares ISO date strings lexicographically, which coincides with the
chronological (integer) order, and `DATE(:end_date, '-1 day')` is `endD - 1`.
`FEDEX_CUP_POINTS` is stored as text and `CAST ... AS FLOAT` in the query;
it is modelled as a rational. -/

structure TournRow where
  season : Int
  endingDate : Int
  tournId : String
  tournament : String
  course : String
  player : String
  pos : String
  fpos : Int
  fedexCupPoints : Rat
  deriving DecidableEq, Repr

/-- The shared window clause
`WHERE ENDING_DATE BETWEEN :start_date AND DATE(:end_date, '-1 day')`.
`startD` is the window start handed in by the caller
(`end_date - pd.DateOffset(months=…)` or `(years=…)` — calendar arithmetic
performed by the date library before the query runs). -/
def windowRows (t : List TournRow) (startD endD : Int) : List TournRow :=
  t.filter (fun r => decide (startD ≤ r.endingDate) && decide (r.endingDate ≤ endD - 1))

/-- Distinct players of a row set (the `GROUP BY PLAYER` / `groupby` keys;
grouping order is irrelevant to every property proved here). -/
def playersOf (rows : List TournRow) : List String :=
  (rows.map (fun r => r.player)).dedup

/-- SQLite `ROUND(x, 1)` / pandas `.round(1)` on the exact rational value
(tie-breaking conventions differ at exact midpoints, which none of the
concrete facts proved here touch). -/
def round1q (q : Rat) : Rat := ((round (q * 10) : Int) : Rat) / 10

/-- `ROUND(x, 2)` / `.round(2)` on the exact rational value. -/
def round2q (q : Rat) : Rat := ((round (q * 100) : Int) : Rat) / 100

/-- `~df["POS"].isin(["CUT", "W/D"])`. -/
def made_cut (r : TournRow) : Bool :=
  !(decide (r.pos = "CUT") || decide (r.pos = "W/D"))

/-- Stable ascending insertion by `ENDING_DATE` (the
`sort_values(by=["PLAYER", "ENDING_DATE"])` order within one player group). -/
def insertByDate (r : TournRow) : List TournRow → List TournRow
  | [] => [r]
  | x :: xs => if r.endingDate < x.endingDate then r :: x :: xs else x :: insertByDate r xs

def sortByDate (l : List TournRow) : List TournRow :=
  l.foldr insertByDate []

/-- One output row of `get_cut_and_fedex_history` for one event. -/
structure CutAgg where
  player : String
  totalEventsPlayed : Nat
  cutsMade : Nat
  fedexCupPoints : Rat
  cutPercentage : Rat
  formDensity : Rat
  consecutiveCuts : Nat
  deriving DecidableEq, Repr

/-- Per-event aggregate of `get_cut_and_fedex_history`: events played, cuts
made, summed points, cut percentage, form density, and the consecutive-cuts
streak counted backward from the newest windowed event. -/
def get_cut_and_fedex_history_event (t : List TournRow) (startD endD : Int) :
    List CutAgg :=
  let rows := windowRows t startD endD
  (playersOf rows).map (fun p =>
    let pr := sortByDate (rows.filter (fun r => decide (r.player = p)))
    let total := pr.length
    let cuts := (pr.filter made_cut).length
    let pts := (pr.map (fun r => r.fedexCupPoints)).sum
    { player := p
      totalEventsPlayed := total
      cutsMade := cuts
      fedexCupPoints := pts
      cutPercentage := round1q ((cuts : Rat) / (total : Rat) * 100)
      formDensity := round2q (pts / (total : Rat))
      consecutiveCuts := ((pr.map made_cut).reverse.takeWhile (fun b => b)).length })

/-- One output row of `get_recent_avg_finish` for one event. -/
structure RecentAgg where
  player : String
  totalEventsPlayed : Nat
  recentForm : Rat
  deriving DecidableEq, Repr

/-- Stable ascending insertion by `RECENT_FORM`
(`sort_values(by="RECENT_FORM", ascending=True)`). -/
def insertByForm (r : RecentAgg) : List RecentAgg → List RecentAgg
  | [] => [r]
  | x :: xs => if r.recentForm < x.recentForm then r :: x :: xs else x :: insertByForm r xs

def sortByForm (l : List RecentAgg) : List RecentAgg :=
  l.foldr insertByForm []

/-- Per-event aggregate of `get_recent_avg_finish`:
`COUNT(*)` and `ROUND(AVG(FINAL_POS), 1)` per player over the window. -/
def get_recent_avg_finish_event (t : List TournRow) (startD endD : Int) :
    List RecentAgg :=
  let rows := windowRows t startD endD
  sortByForm ((playersOf rows).map (fun p =>
    let pr := rows.filter (fun r => decide (r.player = p))
    { player := p
      totalEventsPlayed := pr.length
      recentForm := round1q ((pr.map (fun r => (r.fpos : Rat))).sum / (pr.length : Rat)) }))

/-- One output row of `get_course_history` for one event. -/
structure CourseAgg where
  player : String
  totalEventsPlayed : Nat
  courseHistory : Rat
  deriving DecidableEq, Repr

/-- Per-event aggregate of `get_course_history`: `COUNT(*)` and
`ROUND(AVG(FINAL_POS), 1)` per player over the window, restricted to rows of
the event's course (`WHERE COURSE = :course AND ENDING_DATE BETWEEN …`). -/
def get_course_history_event (t : List TournRow) (course : String)
    (startD endD : Int) : List CourseAgg :=
  let rows := windowRows (t.filter (fun r => decide (r.course = course))) startD endD
  (playersOf rows).map (fun p =>
    let pr := rows.filter (fun r => decide (r.player = p))
    { player := p
      totalEventsPlayed := pr.length
      courseHistory := round1q ((pr.map (fun r => (r.fpos : Rat))).sum / (pr.length : Rat)) })

/-- The log-dampened adjustment factor shared by `adj_form`
(`RECENT_FORM / np.log1p(TOTAL_EVENTS_PLAYED)`) before the final 2-decimal
rounding.  `np.log1p(p) = ln(1 + p)`. -/
noncomputable def adj_form_val (m : Rat) (p : Nat) : Real :=
  (m : Real) / Real.log (1 + (p : Real))

/-- The identical adjustment used for `adj_ch` in `get_course_history`
(`COURSE_HISTORY / np.log1p(TOTAL_EVENTS_PLAYED)`). -/
noncomputable def adj_ch_val (m : Rat) (p : Nat) : Real :=
  (m : Real) / Real.log (1 + (p : Real))

/-- `ROUND(x, 2)` over the reals, for the `.round(2)` applied to the adjusted
columns. -/
noncomputable def round2r (x : Real) : Real := ((round (x * 100) : Int) : Real) / 100

/-- The `adj_form` column as stored: two-decimal rounding of the dampened
mean. -/
noncomputable def adj_form (m : Rat) (p : Nat) : Real := round2r (adj_form_val m p)

/-- The `adj_ch` column as stored. -/
noncomputable def adj_ch (m : Rat) (p : Nat) : Real := round2r (adj_ch_val m p)

theorem windowRows_drop_future (t : List TournRow) (s D : Int) :
    windowRows (t.filter (fun r => decide (r.endingDate < D))) s D = windowRows t s D := by
  unfold windowRows
  rw [List.filter_filter]
  apply List.filter_congr
  intro r _
  by_cases hU : r.endingDate ≤ D - 1 <;> by_cases hD : r.endingDate < D <;>
    simp [hU, hD] <;> omega

theorem windowRows_nil (l : List TournRow) (s D : Int)
    (h : ∀ r ∈ l, D ≤ r.endingDate) : windowRows l s D = [] := by
  unfold windowRows
  rw [List.filter_eq_nil_iff]
  intro r hr
  have hd := h r hr
  simp only [Bool.and_eq_true, decide_eq_true_eq, not_and]
  intro _
  omega

theorem cut_event_congr (t1 t2 : List TournRow) (s D : Int)
    (h : windowRows t1 s D = windowRows t2 s D) :
    get_cut_and_fedex_history_event t1 s D = get_cut_and_fedex_history_event t2 s D := by
  unfold get_cut_and_fedex_history_event
  rw [h]

theorem recent_event_congr (t1 t2 : List TournRow) (s D : Int)
    (h : windowRows t1 s D = windowRows t2 s D) :
    get_recent_avg_finish_event t1 s D = get_recent_avg_finish_event t2 s D := by
  unfold get_recent_avg_finish_event
  rw [h]

theorem course_event_congr (t1 t2 : List TournRow) (c : String) (s D : Int)
    (h : windowRows (t1.filter (fun r => decide (r.course = c))) s D
       = windowRows (t2.filter (fun r => decide (r.course = c))) s D) :
    get_course_history_event t1 c s D = get_course_history_event t2 c s D := by
  unfold get_course_history_event
  rw [h]

/-- C1: each of the three per-event feature aggregates reads only tournament
rows with `ENDING_DATE ≤ D - 1`: deleting every row dated `D` or later from
the store leaves all three results unchanged, and on a synthetic store holding
exactly one row at `D` and one at `D + 1` all three aggregates for the event
at `D` are empty. -/
theorem windowing_exclusivity (t : List TournRow) (startD D : Int) (c : String) :
    (get_cut_and_fedex_history_event
        (t.filter (fun r => decide (r.endingDate < D))) startD D
      = get_cut_and_fedex_history_event t startD D)
  ∧ (get_recent_avg_finish_event
        (t.filter (fun r => decide (r.endingDate < D))) startD D
      = get_recent_avg_finish_event t startD D)
  ∧ (get_course_history_event
        (t.filter (fun r => decide (r.endingDate < D))) c startD D
      = get_course_history_event t c startD D)
  ∧ (∀ r1 r2 : TournRow, r1.endingDate = D → r2.endingDate = D + 1 →
        get_cut_and_fedex_history_event [r1, r2] startD D = []
      ∧ get_recent_avg_finish_event [r1, r2] startD D = []
      ∧ get_course_history_event [r1, r2] c startD D = []) := by
  refine ⟨cut_event_congr _ _ _ _ (windowRows_drop_future t startD D),
          recent_event_congr _ _ _ _ (windowRows_drop_future t startD D),
          course_event_congr _ _ c _ _ ?_, ?_⟩
  · rw [List.filter_comm]
    exact windowRows_drop_future (t.filter (fun r => decide (r.course = c))) startD D
  · intro r1 r2 h1 h2
    have hmem : ∀ r ∈ [r1, r2], D ≤ r.endingDate := by
      intro r hr
      simp only [List.mem_cons, List.not_mem_nil, or_false] at hr
      rcases hr with rfl | rfl <;> omega
    have hw : windowRows [r1, r2] startD D = [] := windowRows_nil _ _ _ hmem
    have hwc : windowRows ([r1, r2].filter (fun r => decide (r.course = c))) startD D = [] := by
      refine windowRows_nil _ _ _ ?_
      intro r hr
      exact hmem r (List.mem_of_mem_filter hr)
    refine ⟨?_, ?_, ?_⟩
    · unfold get_cut_and_fedex_history_event
      rw [hw]
      rfl
    · unfold get_recent_avg_finish_event
      rw [hw]
      rfl
    · unfold get_course_history_event
      rw [hwc]
      rfl

/-- C1 witness: the theorem applied to the synthetic two-row store, one row
ending exactly on the event date 5 and one on day 6. -/
theorem windowing_exclusivity_witness :
    get_cut_and_fedex_history_event
      [⟨2015, 5, "T1", "Open", "C1", "P", "1", 1, 10⟩,
       ⟨2015, 6, "T2", "Next", "C1", "P", "2", 2, 10⟩] 0 5 = []
  ∧ get_recent_avg_finish_event
      [⟨2015, 5, "T1", "Open", "C1", "P", "1", 1, 10⟩,
       ⟨2015, 6, "T2", "Next", "C1", "P", "2", 2, 10⟩] 0 5 = []
  ∧ get_course_history_event
      [⟨2015, 5, "T1", "Open", "C1", "P", "1", 1, 10⟩,
       ⟨2015, 6, "T2", "Next", "C1", "P", "2", 2, 10⟩] "C1" 0 5 = [] :=
  (windowing_exclusivity [] 0 5 "C1").2.2.2
    ⟨2015, 5, "T1", "Open", "C1", "P", "1", 1, 10⟩
    ⟨2015, 6, "T2", "Next", "C1", "P", "2", 2, 10⟩ rfl rfl

/-- The two-event synthetic course store of the end-to-end scenario: player
"P" finishes "3" and then, one year later, "CUT" at the same course; the
numeric positions come from the `final_pos` sentinel logic of the ingestor. -/
def chStore : List TournRow :=
  [⟨2015, 0, "T100", "Championship A", "Quail Hollow", "P", "3",
      (final_pos "3" : Int), 0⟩,
   ⟨2016, 365, "T200", "Championship B", "Quail Hollow", "P", "CUT",
      (final_pos "CUT" : Int), 0⟩]

/-- C5: on the synthetic store, the course-history aggregate for a third event
at the same course two years after the second result (seven-year lookback
window) reports 2 events played and mean final position (3 + 90) / 2 = 46.5
for "P", and the stored adjusted course history is 46.5 / ln 3 (at the
two-decimal rounding the code applies). -/
theorem course_history_scenario :
    get_course_history_event chStore "Quail Hollow" (-1460) 1095
      = [⟨"P", 2, 93 / 2⟩]
  ∧ adj_ch (93 / 2) 2 = round2r ((93 : Real) / 2 / Real.log 3) := by
  constructor
  · unfold get_course_history_event
    rw [show windowRows (chStore.filter (fun r => decide (r.course = "Quail Hollow")))
          (-1460) 1095 = chStore from by decide]
    dsimp only
    rw [show playersOf chStore = ["P"] from by decide]
    simp only [List.map_cons, List.map_nil]
    rw [show chStore.filter (fun r => decide (r.player = "P")) = chStore from by decide]
    simp only [List.cons.injEq, and_true]
    rw [show chStore.map (fun r => (r.fpos : Rat)) = [3, 90] from by
      unfold chStore
      norm_num [show (final_pos "3" : Int) = 3 from by decide,
                show (final_pos "CUT" : Int) = 90 from by decide]]
    have hlen : chStore.length = 2 := by decide
    rw [hlen]
    have hsum : ([3, 90] : List Rat).sum = 93 := by norm_num
    rw [hsum]
    have hr1 : round1q (93 / (2 : Rat)) = 93 / 2 := by
      unfold round1q
      rw [show (93 / (2 : Rat)) * 10 = ((465 : Int) : Rat) by norm_num]
      rw [round_intCast]
      norm_num
    rw [show ((2 : Nat) : Rat) = (2 : Rat) from by norm_num, hr1]
  · unfold adj_ch adj_ch_val
    norm_num

/-- C9: for a fixed positive mean position, the log-dampened adjusted value
`mean / ln(1 + played)` used by `get_recent_avg_finish` (`adj_form`) and
`get_course_history` (`adj_ch`) strictly decreases as the played-event count
grows. -/
theorem log_dampening_monotonicity (m : Rat) (p1 p2 : Nat)
    (hm : 0 < m) (h1 : 1 ≤ p1) (h12 : p1 < p2) :
    adj_form_val m p2 < adj_form_val m p1 ∧ adj_ch_val m p2 < adj_ch_val m p1 := by
  have key : (m : Real) / Real.log (1 + (p2 : Real)) <
      (m : Real) / Real.log (1 + (p1 : Real)) := by
    have hm' : (0 : Real) < (m : Real) := by exact_mod_cast hm
    have hp1 : (1 : Real) < 1 + (p1 : Real) := by
      have h : (1 : Real) ≤ (p1 : Real) := by exact_mod_cast h1
      linarith
    have hlog1 : 0 < Real.log (1 + (p1 : Real)) := Real.log_pos hp1
    have hlt : Real.log (1 + (p1 : Real)) < Real.log (1 + (p2 : Real)) := by
      apply Real.log_lt_log (by linarith)
      have h : (p1 : Real) < (p2 : Real) := by exact_mod_cast h12
      linarith
    exact div_lt_div_of_pos_left hm' hlog1 hlt
  exact ⟨key, key⟩

/-- C9 witness: mean 1, counts 1 and 2. -/
theorem log_dampening_monotonicity_witness :
    (0 : Rat) < 1 ∧ (1 : Nat) ≤ 1 ∧ (1 : Nat) < 2
  ∧ (adj_form_val 1 2 < adj_form_val 1 1 ∧ adj_ch_val 1 2 < adj_ch_val 1 1) :=
  ⟨by decide, by decide, by decide,
    log_dampening_monotonicity 1 1 2 (by decide) (by decide) (by decide)⟩

/-- C3: `update_tournament_results` resolves the numeric final position by
taking the first run of digits in the raw position string and substituting the
sentinel 90 when no digits are present: "T5" ↦ 5, "CUT" ↦ 90, "W/D" ↦ 90,
"1" ↦ 1. -/
theorem sentinel_consistency :
    final_pos "T5" = 5 ∧ final_pos "CUT" = 90 ∧
    final_pos "W/D" = 90 ∧ final_pos "1" = 1 := by
  decide

/-! ## Python string helpers used by several ingestion steps -/

/-- Whitespace for `str.strip()` (the ASCII cases that occur in the data). -/
def isSpaceChar (c : Char) : Bool :=
  c = ' ' || c = '\t' || c = '\n' || c = '\r'

/-- Python `str.strip()`: drop leading and trailing whitespace. -/
def pyStrip (s : String) : String :=
  String.mk (((s.data.dropWhile isSpaceChar).reverse.dropWhile isSpaceChar).reverse)

/-- ASCII lowering for `str.lower()` (sufficient for the "cancelled" probe). -/
def lowerChar (c : Char) : Char :=
  if 'A' ≤ c ∧ c ≤ 'Z' then Char.ofNat (c.toNat + 32) else c

/-- Whether `pat` occurs at the start of `cs`. -/
def startsWithSub : List Char → List Char → Bool
  | _, [] => true
  | [], _ :: _ => false
  | c :: cs, p :: ps => decide (c = p) && startsWithSub cs ps

/-- Substring occurrence, the Python `pat in s` test on character lists. -/
def containsSub : List Char → List Char → Bool
  | [], pat => pat.isEmpty
  | c :: cs, pat => startsWithSub (c :: cs) pat || containsSub cs pat

/-! ## Ingestor persistence contracts (`update_tournament_results` lines
96-119, `import_historical_odds` lines 514-539, `update_season_stats` lines
216-224)

Each SQLite table is a list of rows; an append is list concatenation; the
pandas anti-join (`merge(…, how="left", indicator=True)` keeping
`_merge == "left_only"`) keeps exactly the payload rows whose key matches no
existing row. -/

/-- One row of the `stats` table.  The ~30 per-category rank/value columns are
an opaque payload: the idempotence contract only involves `SEASON`. -/
structure StatRow where
  season : Int
  player : String
  cols : List (Option Rat)
  deriving DecidableEq, Repr

/-- One persisted row of the `odds` table. -/
structure OddsDbRow where
  season : Int
  tournament : String
  endingDate : Int
  player : String
  odds : String
  vegasOdds : Option Rat
  deriving DecidableEq, Repr

/-- The payload rows whose anti-join key is absent from the table — exactly
the rows the ingestor will insert. -/
def new_rows {α κ : Type} [DecidableEq κ] (key : α → κ)
    (table payload : List α) : List α :=
  payload.filter (fun r => !(table.any (fun t => decide (key t = key r))))

/-- Anti-join append: existing table plus the key-fresh payload rows. -/
def anti_join_insert {α κ : Type} [DecidableEq κ] (key : α → κ)
    (table payload : List α) : List α :=
  table ++ new_rows key table payload

/-- Anti-join key of `update_tournament_results`:
`(ENDING_DATE, TOURNAMENT, PLAYER)`. -/
def tournKey (r : TournRow) : Int × String × String :=
  (r.endingDate, r.tournament, r.player)

/-- The write step of `update_tournament_results`. -/
def update_tournament_results_insert (table df : List TournRow) : List TournRow :=
  anti_join_insert tournKey table df

/-- Anti-join key of `import_historical_odds`:
`(SEASON, TOURNAMENT, ENDING_DATE, PLAYER)`. -/
def oddsKey (r : OddsDbRow) : Int × String × Int × String :=
  (r.season, r.tournament, r.endingDate, r.player)

/-- The write step of `import_historical_odds`. -/
def import_historical_odds_insert (table finalDf : List OddsDbRow) : List OddsDbRow :=
  anti_join_insert oddsKey table finalDf

/-- The write step of `update_season_stats`: delete every row of the season,
then append the fresh frame (whose `SEASON` column the function has just set
to `stats_year`). -/
def update_season_stats_write (table payload : List StatRow) (y : Int) : List StatRow :=
  table.filter (fun r => !(decide (r.season = y)))
    ++ payload.map (fun r => { r with season := y })

theorem new_rows_after_insert {α κ : Type} [DecidableEq κ] (key : α → κ)
    (table payload : List α) :
    new_rows key (anti_join_insert key table payload) payload = [] := by
  unfold new_rows anti_join_insert
  rw [List.filter_eq_nil_iff]
  intro r hr
  rw [Bool.not_eq_true, Bool.not_eq_false']
  rw [List.any_append]
  by_cases hmem : (table.any fun t => decide (key t = key r)) = true
  · rw [hmem, Bool.true_or]
  · have hfr : r ∈ new_rows key table payload := by
      unfold new_rows
      rw [List.mem_filter]
      exact ⟨hr, by rw [Bool.not_eq_true', Bool.eq_false_iff]; exact hmem⟩
    have hany : ((new_rows key table payload).any fun t => decide (key t = key r)) = true :=
      List.any_eq_true.mpr ⟨r, hfr, by simp⟩
    rw [hany, Bool.or_true]

theorem anti_join_insert_idem {α κ : Type} [DecidableEq κ] (key : α → κ)
    (table payload : List α) :
    anti_join_insert key (anti_join_insert key table payload) payload
      = anti_join_insert key table payload := by
  conv_lhs => rw [anti_join_insert]
  rw [new_rows_after_insert, List.append_nil]

theorem update_season_stats_idem (table payload : List StatRow) (y : Int) :
    update_season_stats_write (update_season_stats_write table payload y) payload y
      = update_season_stats_write table payload y := by
  unfold update_season_stats_write
  rw [List.filter_append, List.filter_filter]
  have h1 : (table.filter fun r =>
      (!decide (r.season = y)) && !decide (r.season = y)) =
      table.filter fun r => !decide (r.season = y) := by
    apply List.filter_congr
    intro r _
    rw [Bool.and_self]
  have h2 : ((payload.map fun r => { r with season := y }).filter
      fun r => !decide (r.season = y)) = [] := by
    rw [List.filter_eq_nil_iff]
    intro r hr
    rcases List.mem_map.mp hr with ⟨r0, _, rfl⟩
    simp
  rw [h1, h2, List.append_nil]

/-- C2: re-running an ingestor with an identical payload inserts zero new
rows and leaves the table state identical: the tournament and odds writers
insert only rows absent by anti-join key, and the stats writer
deletes-then-reinserts the season. -/
theorem ingestor_idempotence (tournTable df : List TournRow)
    (oddsTable finalDf : List OddsDbRow)
    (statsTable statsData : List StatRow) (y : Int) :
    new_rows tournKey (update_tournament_results_insert tournTable df) df = []
  ∧ update_tournament_results_insert (update_tournament_results_insert tournTable df) df
      = update_tournament_results_insert tournTable df
  ∧ new_rows oddsKey (import_historical_odds_insert oddsTable finalDf) finalDf = []
  ∧ import_historical_odds_insert (import_historical_odds_insert oddsTable finalDf) finalDf
      = import_historical_odds_insert oddsTable finalDf
  ∧ update_season_stats_write (update_season_stats_write statsTable statsData y) statsData y
      = update_season_stats_write statsTable statsData y :=
  ⟨new_rows_after_insert tournKey tournTable df,
   anti_join_insert_idem tournKey tournTable df,
   new_rows_after_insert oddsKey oddsTable finalDf,
   anti_join_insert_idem oddsKey oddsTable finalDf,
   update_season_stats_idem statsTable statsData y⟩

/-- C4 counterexample: the claim says a row whose odds string contains no
`numerator/denominator` pattern is excluded from the result of
`import_historical_odds`.  In fact the conversion step keeps every collected
row; a non-matching string such as "EVEN" merely yields a missing
`VEGAS_ODDS` value, and the row appears in the output. -/
theorem odds_no_pattern_row_retained :
    attach_vegas_odds [⟨"Patrick Reed", "EVEN"⟩] =
      [⟨"Patrick Reed", "EVEN", none⟩] := by
  decide

/-- C4 (amended): "9/2" converts to 4.5 and "100/1" to 100.0 after stripping
thousands separators; a row whose odds string has no such pattern is retained
with a null decimal-odds value rather than excluded (and nothing crashes:
`import_historical_odds` keeps each row with a missing `VEGAS_ODDS`, and
`get_current_week_odds` keeps all rows, nulling the whole column when any
entry fails the float conversion). -/
theorem odds_conversion :
    vegas_odds "9/2" = some (4.5 : Rat)
  ∧ vegas_odds "100/1" = some (100 : Rat)
  ∧ (∀ rows : List OddsRow,
      (attach_vegas_odds rows).map (fun r => (r.player, r.odds)) =
        rows.map (fun r => (r.player, r.odds)))
  ∧ (∀ rows : List OddsRow, ∀ r ∈ rows, vegas_odds r.odds = none →
      OddsRowV.mk r.player r.odds none ∈ attach_vegas_odds rows)
  ∧ (∀ ss : List String, (current_week_vegas ss).length = ss.length) := by
  refine ⟨?_, ?_, ?_, ?_, ?_⟩
  · unfold vegas_odds
    rw [show fracScan (stripCommas "9/2") = some (9, 2) from by decide]
    norm_num
  · unfold vegas_odds
    rw [show fracScan (stripCommas "100/1") = some (100, 1) from by decide]
    norm_num
  · intro rows
    simp [attach_vegas_odds]
  · intro rows r hr hnone
    have : OddsRowV.mk r.player r.odds none = ⟨r.player, r.odds, vegas_odds r.odds⟩ := by
      rw [hnone]
    rw [this]
    exact List.mem_map_of_mem _ hr
  · intro ss
    unfold current_week_vegas
    by_cases h : ss.all splitFloatsOk
    · rw [if_pos h, List.length_map]
    · rw [if_neg h, List.length_map]

/-- C4 witness: the amended theorem applied to a concrete one-row table whose
odds string "EVEN" has no fraction pattern. -/
theorem odds_conversion_witness :
    (OddsRow.mk "Patrick Cantlay" "EVEN") ∈ [OddsRow.mk "Patrick Cantlay" "EVEN"]
  ∧ vegas_odds "EVEN" = none
  ∧ OddsRowV.mk "Patrick Cantlay" "EVEN" none ∈
      attach_vegas_odds [OddsRow.mk "Patrick Cantlay" "EVEN"] :=
  ⟨by decide, by decide,
    odds_conversion.2.2.2.1 [OddsRow.mk "Patrick Cantlay" "EVEN"]
      (OddsRow.mk "Patrick Cantlay" "EVEN") (by decide) (by decide)⟩

/-! ## Fetch/parse control flow of `update_tournament_results` (lines 52-92)

The HTTP call and JSON decoding are external collaborators; their possible
outcomes are an explicit data type, and the function body's `try/except`
structure becomes a match producing `Except` (an `error` models a Python
exception escaping to the caller, `ok none` models `return None`). -/

/-- One upstream player record: the position string may be absent (`dropna`
drops those rows), and the points figure is text parseable as a float. -/
structure PlayerRec where
  position : Option String
  displayName : String
  rounds : List Int
  officialMoney : String
  fedexCupPoints : Rat
  deriving DecidableEq, Repr

/-- Outcome of the fetch-and-decode prefix of `update_tournament_results`. -/
inductive FetchOutcome
  | netFailure
  | parseFailure
  | success (players : List PlayerRec)

/-- The DataFrame-building part of `update_tournament_results`: drop records
with no position, compute `FINAL_POS` via the digit-run/sentinel rule, and
attach the event metadata to every row. -/
def ingest_rows (season endingDate : Int) (tournId tournName course : String)
    (players : List PlayerRec) : List TournRow :=
  (players.filter (fun p => p.position.isSome)).map (fun p =>
    { season := season
      endingDate := endingDate
      tournId := tournId
      tournament := tournName
      course := course
      player := p.displayName
      pos := p.position.getD ""
      fpos := (final_pos (p.position.getD "") : Int)
      fedexCupPoints := p.fedexCupPoints })

/-- The control flow of `update_tournament_results` around the fetch: a
network/HTTP failure is caught, logged and returns `None`; a JSON body that
cannot be parsed into the players list is caught, logged and then *re-raised*
(`raise`); an empty players list returns `None`; otherwise the ingested
frame is produced. -/
def update_tournament_results_fetch (season endingDate : Int)
    (tournId tournName course : String) :
    FetchOutcome → Except String (Option (List TournRow))
  | FetchOutcome.netFailure => Except.ok none
  | FetchOutcome.parseFailure => Except.error "Error parsing JSON response"
  | FetchOutcome.success players =>
    if players.isEmpty then Except.ok none
    else Except.ok (some (ingest_rows season endingDate tournId tournName course players))

/-- C8 counterexample: the claim says every unparseable JSON body is logged
and turned into a null result.  The code's second `try/except` ends in
`raise`, so the parse failure propagates as an exception instead of a null
return. -/
theorem parse_failure_raises :
    update_tournament_results_fetch 2015 0 "T010" "Open" "Muirfield"
        FetchOutcome.parseFailure = Except.error "Error parsing JSON response"
  ∧ update_tournament_results_fetch 2015 0 "T010" "Open" "Muirfield"
        FetchOutcome.parseFailure ≠ Except.ok none := by
  refine ⟨rfl, ?_⟩
  intro h
  cases h

/-- C8 (amended): a network/HTTP failure is logged and returns a null result,
and so does a response with zero players; but a response body that cannot be
parsed into the players list is logged and then re-raised, propagating to the
caller. -/
theorem transient_fetch_handling (season endingDate : Int)
    (tournId tournName course : String) :
    update_tournament_results_fetch season endingDate tournId tournName course
        FetchOutcome.netFailure = Except.ok none
  ∧ update_tournament_results_fetch season endingDate tournId tournName course
        FetchOutcome.parseFailure = Except.error "Error parsing JSON response"
  ∧ update_tournament_results_fetch season endingDate tournId tournName course
        (FetchOutcome.success []) = Except.ok none :=
  ⟨rfl, rfl, rfl⟩

/-! ## Block segmentation of `import_historical_odds` (lines 436-491)

The scraped two-column table is a list of (player-text, optional-odds) rows;
`re.search` over the two date patterns and `parse_ending_date` are external
regex/date collaborators, passed in as predicates.  The two nested `while`
loops become one fuel-indexed recursion with an outside/inside-block mode;
every step advances the cursor except the single inner-loop `break`, so
`2 * len + 8` fuel is more than the loops can consume and the model's
traversal coincides with the Python one. -/

structure ScrapeRow where
  player : String
  odds : Option String
  deriving DecidableEq, Repr

instance : Inhabited ScrapeRow := ⟨⟨"", none⟩⟩

/-- `df.loc[i]` after `reset_index`. -/
def rowAt (df : List ScrapeRow) (i : Nat) : ScrapeRow := df.getD i default

/-- The header test applied at cursor `i`: this row's and the next row's odds
cells are both empty and the text two rows ahead matches one of the two date
patterns (the `dateLike` parameter). -/
def is_header_at (df : List ScrapeRow) (dateLike : String → Bool) (i : Nat) : Bool :=
  (rowAt df i).odds.isNone && (rowAt df (i + 1)).odds.isNone &&
    dateLike (rowAt df (i + 2)).player

/-- One collected data row: its index in the scraped table plus the block
tags (`TOURNAMENT`, `ENDING_DATE`) attached to it. -/
structure OddsPick where
  idx : Nat
  tournament : String
  endingDate : Option Int
  deriving DecidableEq, Repr

inductive ScanMode
  | outside
  | inside (tournament : String) (endingDate : Option Int)

/-- The block-by-block scan: outside mode is the outer `while i < len - 4`
loop, inside mode is the value-collection `while i < len - 2` loop, and the
`last` component is the `(last_tourn_name, last_end_date)` pair used to skip
re-detected duplicate headers. -/
def scanGo (df : List ScrapeRow) (dateLike : String → Bool)
    (parseDate : String → Option Int) :
    Nat → Nat → ScanMode → Option (String × Option Int) → List OddsPick
  | 0, _, _, _ => []
  | fuel + 1, i, ScanMode.outside, last =>
    if i < df.length - 4 then
      if is_header_at df dateLike i then
        let name := pyStrip (rowAt df i).player
        let date := parseDate (rowAt df (i + 2)).player
        if containsSub ((rowAt df (i + 3)).player.data.map lowerChar)
            "cancelled".data then
          scanGo df dateLike parseDate fuel (i + 4) ScanMode.outside last
        else if last = some (name, date) then
          scanGo df dateLike parseDate fuel (i + 1) ScanMode.outside last
        else
          scanGo df dateLike parseDate fuel (i + 4) (ScanMode.inside name date)
            (some (name, date))
      else scanGo df dateLike parseDate fuel (i + 1) ScanMode.outside last
    else []
  | fuel + 1, i, ScanMode.inside name date, last =>
    if i < df.length - 2 then
      if is_header_at df dateLike i then
        scanGo df dateLike parseDate fuel i ScanMode.outside last
      else if (rowAt df i).odds.isSome then
        OddsPick.mk i name date ::
          scanGo df dateLike parseDate fuel (i + 1) (ScanMode.inside name date) last
      else
        scanGo df dateLike parseDate fuel (i + 1) (ScanMode.inside name date) last
    else []

/-- The whole scan of `import_historical_odds`, started outside any block at
cursor 0 with no previous header. -/
def import_historical_odds_scan (df : List ScrapeRow) (dateLike : String → Bool)
    (parseDate : String → Option Int) : List OddsPick :=
  scanGo df dateLike parseDate (2 * df.length + 8) 0 ScanMode.outside none

/-- A concrete scraped table: one valid header block whose data rows run to
the very end of the table. -/
def cexTable : List ScrapeRow :=
  [⟨"Masters Tournament", none⟩,
   ⟨"Augusta National", none⟩,
   ⟨"April 10-13, 2014", none⟩,
   ⟨"", none⟩,
   ⟨"Bubba Watson", some "10/1"⟩,
   ⟨"Adam Scott", some "12/1"⟩,
   ⟨"Jordan Spieth", some "9/2"⟩]

/-- The single date-like text of `cexTable`, as the date-range regex would
classify it. -/
def cexDateLike (s : String) : Bool := decide (s = "April 10-13, 2014")

/-- The modelled `parse_ending_date` for `cexTable`. -/
def cexParseDate (s : String) : Option Int :=
  if s = "April 10-13, 2014" then some 16173 else none

/-- C7 counterexample: the claim says every data row up to the next header or
the end of the table is collected.  On `cexTable` the final block's data rows
sit at indices 4, 5, 6, all with non-empty odds cells, yet only index 4 is
collected: the collection loop's bound `i < len(df) - 2` never lets the
cursor reach the last two rows. -/
theorem odds_scan_drops_trailing_rows :
    import_historical_odds_scan cexTable cexDateLike cexParseDate
      = [⟨4, "Masters Tournament", some 16173⟩]
  ∧ (rowAt cexTable 5).odds.isSome = true
  ∧ (rowAt cexTable 6).odds.isSome = true := by
  decide

/-- C7 (amended): once a header is detected, subsequent rows with a non-empty
odds cell are collected and tagged with the block's name and date, but only
while the cursor stays below `len(df) - 2`: every collected row has index
strictly below `len(df) - 2` and a non-empty odds cell, so the last two table
rows never appear in the output even when they are data rows of the final
block. -/
theorem odds_scan_collection_bounds (df : List ScrapeRow)
    (dateLike : String → Bool) (parseDate : String → Option Int)
    (e : OddsPick) (he : e ∈ import_historical_odds_scan df dateLike parseDate) :
    e.idx < df.length - 2 ∧ (rowAt df e.idx).odds.isSome = true := by
  have main : ∀ (fuel i : Nat) (mode : ScanMode)
      (last : Option (String × Option Int)),
      e ∈ scanGo df dateLike parseDate fuel i mode last →
      e.idx < df.length - 2 ∧ (rowAt df e.idx).odds.isSome = true := by
    intro fuel
    induction fuel with
    | zero =>
      intro i mode last h
      simp [scanGo] at h
    | succ n ih =>
      intro i mode last h
      cases mode with
      | outside =>
        rw [scanGo] at h
        split at h
        · split at h
          · split at h
            · exact ih _ _ _ h
            · dsimp only at h
              split at h
              · exact ih _ _ _ h
              · exact ih _ _ _ h
          · exact ih _ _ _ h
        · simp at h
      | inside name date =>
        rw [scanGo] at h
        split at h
        · next hbound =>
          split at h
          · exact ih _ _ _ h
          · split at h
            · next hodds =>
              rcases List.mem_cons.mp h with rfl | htail
              · exact ⟨hbound, hodds⟩
              · exact ih _ _ _ htail
            · exact ih _ _ _ h
        · simp at h
  exact main _ _ _ _ he

/-- C7 witness: the bound theorem applied to the concrete table and its one
collected row. -/
theorem odds_scan_collection_bounds_witness :
    (OddsPick.mk 4 "Masters Tournament" (some 16173) ∈
      import_historical_odds_scan cexTable cexDateLike cexParseDate)
  ∧ 4 < cexTable.length - 2
  ∧ (rowAt cexTable 4).odds.isSome = true :=
  ⟨by decide,
   (odds_scan_collection_bounds cexTable cexDateLike cexParseDate
      (OddsPick.mk 4 "Masters Tournament" (some 16173)) (by decide)).1,
   (odds_scan_collection_bounds cexTable cexDateLike cexParseDate
      (OddsPick.mk 4 "Masters Tournament" (some 16173)) (by decide)).2⟩

/-! ## The in-place feature-frame mutation of `build_training_rows`
(lines 843-865)

For each event with a non-empty base result set, the builder executes
`cuts[date_key]["PLAYER"] = cuts[date_key]["PLAYER"].astype(str).str.strip()`
(and likewise for `recent_form` and `course_hist`) whenever the key is
present — assignments into the caller's own DataFrames.  Python mutation is
modelled by state passing: the function returns the three dictionaries in
their post-call state.  Keys are the event end dates (Python uses
`str(end_date)`, an injective image of the date). -/

/-- One row of a per-event feature frame; the non-PLAYER columns are an
opaque payload. -/
structure FeatRow where
  player : String
  vals : List Rat
  deriving DecidableEq, Repr

/-- A feature dictionary: event end date ↦ feature frame. -/
def FeatDict : Type := List (Int × List FeatRow)

/-- The `.astype(str).str.strip()` overwrite of a frame's PLAYER column. -/
def strip_players (f : List FeatRow) : List FeatRow :=
  f.map (fun r => ⟨pyStrip r.player, r.vals⟩)

def dict_lookup (d : FeatDict) (k : Int) : Option (List FeatRow) :=
  (List.find? (fun kv => decide (kv.1 = k)) d).map (fun kv => kv.2)

/-- The Python `date_key in cuts` test. -/
def dict_has (d : FeatDict) (k : Int) : Bool :=
  List.any d (fun kv => decide (kv.1 = k))

/-- The in-place PLAYER overwrite at one key. -/
def strip_at_key (d : FeatDict) (k : Int) : FeatDict :=
  List.map (fun kv => if kv.1 = k then (kv.1, strip_players kv.2) else kv) d

/-- `if date_key in d:` guard around the overwrite. -/
def mutate_if_present (d : FeatDict) (k : Int) : FeatDict :=
  if dict_has d k then strip_at_key d k else d

/-- One row of the event list the builder iterates over. -/
structure HistEvent where
  endingDate : Int
  season : Int
  tournament : String
  deriving DecidableEq, Repr

/-- The base query of one builder iteration:
`SELECT * FROM tournaments WHERE ENDING_DATE = :end_date AND TOURNAMENT = :tourn_name`. -/
def base_rows (table : List TournRow) (ev : HistEvent) : List TournRow :=
  table.filter (fun r =>
    decide (r.endingDate = ev.endingDate) && decide (r.tournament = ev.tournament))

/-- The side effect of `build_training_rows` on its three dictionary
arguments: events with an empty base are skipped (`continue`) before any
mutation; otherwise each dictionary holding the event's date key gets its
frame's PLAYER column stripped in place. -/
def build_training_rows_mutation (table : List TournRow) :
    List HistEvent → FeatDict × FeatDict × FeatDict → FeatDict × FeatDict × FeatDict
  | [], st => st
  | ev :: rest, (cuts, recent, course) =>
    if (base_rows table ev).isEmpty then
      build_training_rows_mutation table rest (cuts, recent, course)
    else
      build_training_rows_mutation table rest
        (mutate_if_present cuts ev.endingDate,
         mutate_if_present recent ev.endingDate,
         mutate_if_present course ev.endingDate)

theorem dict_lookup_cons (kv : Int × List FeatRow) (rest : FeatDict) (k : Int) :
    dict_lookup (kv :: rest) k = if kv.1 = k then some kv.2 else dict_lookup rest k := by
  unfold dict_lookup
  rw [List.find?_cons]
  by_cases h : kv.1 = k
  · simp [h]
  · simp [h]

theorem dict_has_cons (kv : Int × List FeatRow) (rest : FeatDict) (k : Int) :
    dict_has (kv :: rest) k = (decide (kv.1 = k) || dict_has rest k) := rfl

theorem strip_at_key_cons (kv : Int × List FeatRow) (rest : FeatDict) (k : Int) :
    strip_at_key (kv :: rest) k
      = (if kv.1 = k then (kv.1, strip_players kv.2) else kv) :: strip_at_key rest k := rfl

theorem dict_lookup_strip_at_key (d : FeatDict) (k : Int) :
    dict_lookup (strip_at_key d k) k = (dict_lookup d k).map strip_players := by
  induction d with
  | nil => rfl
  | cons kv rest ih =>
    rw [strip_at_key_cons, dict_lookup_cons, dict_lookup_cons]
    by_cases hk : kv.1 = k
    · rw [if_pos hk]
      rw [if_pos (show ((kv.1, strip_players kv.2) : Int × List FeatRow).1 = k from hk)]
      rw [if_pos hk]
      rfl
    · rw [if_neg hk, if_neg hk, if_neg hk]
      exact ih

theorem dict_lookup_strip_at_key_other (d : FeatDict) (k k' : Int) (hne : k' ≠ k) :
    dict_lookup (strip_at_key d k') k = dict_lookup d k := by
  induction d with
  | nil => rfl
  | cons kv rest ih =>
    rw [strip_at_key_cons, dict_lookup_cons, dict_lookup_cons]
    by_cases hk : kv.1 = k'
    · have hnk : kv.1 ≠ k := by rw [hk]; exact hne
      rw [if_pos hk]
      rw [if_neg (show ¬ ((kv.1, strip_players kv.2) : Int × List FeatRow).1 = k from hnk)]
      rw [if_neg hnk]
      exact ih
    · rw [if_neg hk]
      by_cases hk2 : kv.1 = k
      · rw [if_pos hk2, if_pos hk2]
      · rw [if_neg hk2, if_neg hk2]
        exact ih

theorem dict_has_strip_at_key (d : FeatDict) (k k' : Int) :
    dict_has (strip_at_key d k') k = dict_has d k := by
  induction d with
  | nil => rfl
  | cons kv rest ih =>
    rw [strip_at_key_cons, dict_has_cons, dict_has_cons]
    by_cases hk : kv.1 = k'
    · rw [if_pos hk]
      rw [show ((kv.1, strip_players kv.2) : Int × List FeatRow).1 = kv.1 from rfl, ih]
    · rw [if_neg hk, ih]

theorem dict_has_of_lookup (d : FeatDict) (k : Int) (f : List FeatRow)
    (h : dict_lookup d k = some f) : dict_has d k = true := by
  induction d with
  | nil => cases h
  | cons kv rest ih =>
    rw [dict_lookup_cons] at h
    rw [dict_has_cons]
    by_cases hk : kv.1 = k
    · simp [hk]
    · rw [if_neg hk] at h
      simp [hk, ih h]

theorem dict_lookup_mutate_other (d : FeatDict) (k k' : Int) (hne : k' ≠ k) :
    dict_lookup (mutate_if_present d k') k = dict_lookup d k := by
  unfold mutate_if_present
  split
  · exact dict_lookup_strip_at_key_other d k k' hne
  · rfl

theorem dict_has_mutate (d : FeatDict) (k k' : Int) :
    dict_has (mutate_if_present d k') k = dict_has d k := by
  unfold mutate_if_present
  split
  · exact dict_has_strip_at_key d k k'
  · rfl

theorem build_mutation_untouched (table : List TournRow) (hist : List HistEvent)
    (k : Int) (hk : ∀ e ∈ hist, e.endingDate ≠ k) :
    ∀ cuts recent course : FeatDict,
      dict_lookup (build_training_rows_mutation table hist (cuts, recent, course)).1 k
        = dict_lookup cuts k
    ∧ dict_lookup (build_training_rows_mutation table hist (cuts, recent, course)).2.1 k
        = dict_lookup recent k
    ∧ dict_lookup (build_training_rows_mutation table hist (cuts, recent, course)).2.2 k
        = dict_lookup course k := by
  induction hist with
  | nil => intro cuts recent course; exact ⟨rfl, rfl, rfl⟩
  | cons ev rest ih =>
    intro cuts recent course
    have hne : ev.endingDate ≠ k := hk ev (List.mem_cons_self ev rest)
    have hk' : ∀ e ∈ rest, e.endingDate ≠ k := fun e he => hk e (List.mem_cons_of_mem ev he)
    rw [build_training_rows_mutation]
    split
    · exact ih hk' cuts recent course
    · rcases ih hk' (mutate_if_present cuts ev.endingDate)
        (mutate_if_present recent ev.endingDate)
        (mutate_if_present course ev.endingDate) with ⟨h1, h2, h3⟩
      exact ⟨h1.trans (dict_lookup_mutate_other _ _ _ hne),
             h2.trans (dict_lookup_mutate_other _ _ _ hne),
             h3.trans (dict_lookup_mutate_other _ _ _ hne)⟩

theorem strip_players_ne (f : List FeatRow) (rr : FeatRow) (hmem : rr ∈ f)
    (hch : pyStrip rr.player ≠ rr.player) : strip_players f ≠ f := by
  intro heq
  induction f with
  | nil => cases hmem
  | cons x rest ih =>
    rw [strip_players, List.map_cons] at heq
    injection heq with hhead htail
    rcases List.mem_cons.mp hmem with rfl | hrest
    · have : pyStrip rr.player = rr.player := congrArg FeatRow.player hhead
      exact hch this
    · exact ih hrest htail

/-- C10: `build_training_rows` mutates its `cuts`, `recent_form` and
`course_hist` dictionary arguments: for every event it actually uses (present
in the history list, with a non-empty base result set, dates pairwise
distinct) whose end-date key a dictionary holds, the post-call state of that
dictionary maps the key to the frame with its PLAYER column overwritten by
the whitespace-stripped names; whenever some stored name is not already
stripped, the frame is therefore not left unchanged. -/
theorem build_training_rows_mutates_arguments (table : List TournRow)
    (hist : List HistEvent) (cuts recent course : FeatDict) (ev : HistEvent)
    (hmem : ev ∈ hist)
    (hnodup : (hist.map (fun e => e.endingDate)).Nodup)
    (hbase : (base_rows table ev).isEmpty = false) :
    (dict_has cuts ev.endingDate = true →
      dict_lookup (build_training_rows_mutation table hist (cuts, recent, course)).1
          ev.endingDate
        = (dict_lookup cuts ev.endingDate).map strip_players)
  ∧ (dict_has recent ev.endingDate = true →
      dict_lookup (build_training_rows_mutation table hist (cuts, recent, course)).2.1
          ev.endingDate
        = (dict_lookup recent ev.endingDate).map strip_players)
  ∧ (dict_has course ev.endingDate = true →
      dict_lookup (build_training_rows_mutation table hist (cuts, recent, course)).2.2
          ev.endingDate
        = (dict_lookup course ev.endingDate).map strip_players)
  ∧ (∀ f : List FeatRow, dict_lookup cuts ev.endingDate = some f →
      (∃ rr ∈ f, pyStrip rr.player ≠ rr.player) →
      dict_lookup (build_training_rows_mutation table hist (cuts, recent, course)).1
          ev.endingDate
        ≠ dict_lookup cuts ev.endingDate) := by
  induction hist generalizing cuts recent course with
  | nil => cases hmem
  | cons ev0 rest ih =>
    rcases List.mem_cons.mp hmem with rfl | hrest
    · have hk' : ∀ e ∈ rest, e.endingDate ≠ ev.endingDate := by
        intro e he heq
        rw [List.map_cons, List.nodup_cons] at hnodup
        exact hnodup.1 (heq ▸ List.mem_map_of_mem (fun e => e.endingDate) he)
      rw [build_training_rows_mutation, hbase]
      simp only [Bool.false_eq_true, if_false]
      rcases build_mutation_untouched table rest ev.endingDate hk'
          (mutate_if_present cuts ev.endingDate)
          (mutate_if_present recent ev.endingDate)
          (mutate_if_present course ev.endingDate) with ⟨h1, h2, h3⟩
      have look : ∀ d : FeatDict, dict_has d ev.endingDate = true →
          dict_lookup (mutate_if_present d ev.endingDate) ev.endingDate
            = (dict_lookup d ev.endingDate).map strip_players := by
        intro d hd
        unfold mutate_if_present
        rw [hd]
        simp only [if_true]
        exact dict_lookup_strip_at_key d ev.endingDate
      refine ⟨fun hc => h1.trans (look cuts hc),
              fun hc => h2.trans (look recent hc),
              fun hc => h3.trans (look course hc), ?_⟩
      rintro f hf ⟨rr, hrr, hch⟩ heq
      have hc : dict_has cuts ev.endingDate = true := dict_has_of_lookup cuts _ f hf
      have hres := h1.trans (look cuts hc)
      have hX : dict_lookup cuts ev.endingDate
          = Option.map strip_players (dict_lookup cuts ev.endingDate) :=
        heq.symm.trans hres
      rw [hf, Option.map_some'] at hX
      injection hX with hinj
      exact strip_players_ne f rr hrr hch hinj.symm
    · have hnodup' : (rest.map (fun e => e.endingDate)).Nodup := by
        rw [List.map_cons, List.nodup_cons] at hnodup
        exact hnodup.2
      have hne0 : ev0.endingDate ≠ ev.endingDate := by
        intro heq
        rw [List.map_cons, List.nodup_cons] at hnodup
        exact hnodup.1 (heq ▸ List.mem_map_of_mem (fun e => e.endingDate) hrest)
      rw [build_training_rows_mutation]
      split
      · exact ih cuts recent course hrest hnodup'
      · rcases ih (mutate_if_present cuts ev0.endingDate)
            (mutate_if_present recent ev0.endingDate)
            (mutate_if_present course ev0.endingDate) hrest hnodup' with ⟨h1, h2, h3, h4⟩
        have e1 := dict_lookup_mutate_other cuts ev.endingDate ev0.endingDate hne0
        have e2 := dict_lookup_mutate_other recent ev.endingDate ev0.endingDate hne0
        have e3 := dict_lookup_mutate_other course ev.endingDate ev0.endingDate hne0
        refine ⟨?_, ?_, ?_, ?_⟩
        · intro hc
          have := h1 (by rw [dict_has_mutate]; exact hc)
          rw [e1] at this
          exact this
        · intro hc
          have := h2 (by rw [dict_has_mutate]; exact hc)
          rw [e2] at this
          exact this
        · intro hc
          have := h3 (by rw [dict_has_mutate]; exact hc)
          rw [e3] at this
          exact this
        · intro f hf hex
          have := h4 f (by rw [e1]; exact hf) hex
          rw [e1] at this
          exact this

/-- Concrete tournament table for the C10 witness. -/
def w10table : List TournRow :=
  [⟨2015, 5, "T1", "Open", "C1", "P", "1", 1, 0⟩]

/-- Concrete history event for the C10 witness. -/
def w10ev : HistEvent := ⟨5, 2015, "Open"⟩

/-- Concrete cut-feature dictionary, whose stored player name carries
surrounding whitespace. -/
def w10cuts : FeatDict := [(5, [⟨" Jon Rahm ", []⟩])]

/-- C10 witness: on a one-event history the post-call cut dictionary holds
the stripped PLAYER column, hence differs from the argument's prior state. -/
theorem build_training_rows_mutates_arguments_witness :
    dict_lookup (build_training_rows_mutation w10table [w10ev] (w10cuts, [], [])).1 5
      = (dict_lookup w10cuts 5).map strip_players
  ∧ dict_lookup (build_training_rows_mutation w10table [w10ev] (w10cuts, [], [])).1 5
      ≠ dict_lookup w10cuts 5 :=
  ⟨(build_training_rows_mutates_arguments w10table [w10ev] w10cuts [] [] w10ev
      (by decide) (by decide) (by decide)).1 (by decide),
   (build_training_rows_mutates_arguments w10table [w10ev] w10cuts [] [] w10ev
      (by decide) (by decide) (by decide)).2.2.2 [⟨" Jon Rahm ", []⟩]
      (by decide) (by decide)⟩

/-! ## Column bookkeeping of `build_training_rows` (lines 871-888)

The joins of the row builder are tracked at the column level: each column
carries its name and the source frame it came from.  A pandas
`merge(…, on=keys, how="left")` keeps the key columns once, suffixes
overlapping non-key columns `_x` (left) / `_y` (right), and appends the
remaining right columns after the left ones.  The per-event cut / recent-form
/ course-history merges only happen when the event's date key is present in
the corresponding dictionary, so each is guarded by a flag. -/

inductive ColSrc
  | tournRes
  | seasonStats
  | oddsTab
  | cutsFeat
  | recentFeat
  | courseFeat
  | label
  deriving DecidableEq, Repr

structure Col where
  name : String
  src : ColSrc
  deriving DecidableEq, Repr

/-- Column-level semantics of `DataFrame.merge(…, on=keys, how="left")`. -/
def merge_cols (left right : List Col) (keys : List String) : List Col :=
  let ln := left.map (fun c => c.name)
  let rn := right.map (fun c => c.name)
  left.map (fun c =>
      if !(keys.contains c.name) && rn.contains c.name then ⟨c.name ++ "_x", c.src⟩
      else c)
    ++ (right.filter (fun c => !(keys.contains c.name))).map (fun c =>
      if ln.contains c.name then ⟨c.name ++ "_y", c.src⟩ else c)

/-- `SELECT * FROM tournaments` columns (schema.py). -/
def tournament_cols : List Col :=
  [⟨"SEASON", .tournRes⟩, ⟨"ENDING_DATE", .tournRes⟩, ⟨"TOURN_ID", .tournRes⟩,
   ⟨"TOURNAMENT", .tournRes⟩, ⟨"COURSE", .tournRes⟩, ⟨"PLAYER", .tournRes⟩,
   ⟨"POS", .tournRes⟩, ⟨"FINAL_POS", .tournRes⟩,
   ⟨"ROUNDS:1", .tournRes⟩, ⟨"ROUNDS:2", .tournRes⟩,
   ⟨"ROUNDS:3", .tournRes⟩, ⟨"ROUNDS:4", .tournRes⟩,
   ⟨"OFFICIAL_MONEY", .tournRes⟩, ⟨"FEDEX_CUP_POINTS", .tournRes⟩]

/-- `SELECT * FROM stats` columns (schema.py). -/
def stats_cols : List Col :=
  [⟨"SEASON", .seasonStats⟩, ⟨"PLAYER", .seasonStats⟩,
   ⟨"SGTTG_RANK", .seasonStats⟩, ⟨"SGTTG", .seasonStats⟩,
   ⟨"SGOTT_RANK", .seasonStats⟩, ⟨"SGOTT", .seasonStats⟩,
   ⟨"SGAPR_RANK", .seasonStats⟩, ⟨"SGAPR", .seasonStats⟩,
   ⟨"SGATG_RANK", .seasonStats⟩, ⟨"SGATG", .seasonStats⟩,
   ⟨"SGP_RANK", .seasonStats⟩, ⟨"SGP", .seasonStats⟩,
   ⟨"BIRDIES_RANK", .seasonStats⟩, ⟨"BIRDIES", .seasonStats⟩,
   ⟨"PAR_3_RANK", .seasonStats⟩, ⟨"PAR_3", .seasonStats⟩,
   ⟨"PAR_4_RANK", .seasonStats⟩, ⟨"PAR_4", .seasonStats⟩,
   ⟨"PAR_5_RANK", .seasonStats⟩, ⟨"PAR_5", .seasonStats⟩,
   ⟨"TOTAL_DRIVING_RANK", .seasonStats⟩, ⟨"TOTAL_DRIVING", .seasonStats⟩,
   ⟨"DRIVING_DISTANCE_RANK", .seasonStats⟩, ⟨"DRIVING_DISTANCE", .seasonStats⟩,
   ⟨"DRIVING_ACCURACY_RANK", .seasonStats⟩, ⟨"DRIVING_ACCURACY", .seasonStats⟩,
   ⟨"GIR_RANK", .seasonStats⟩, ⟨"GIR", .seasonStats⟩,
   ⟨"SCRAMBLING_RANK", .seasonStats⟩, ⟨"SCRAMBLING", .seasonStats⟩,
   ⟨"OWGR_RANK", .seasonStats⟩, ⟨"OWGR", .seasonStats⟩]

/-- Odds subset merged on PLAYER: `odds_sub[["PLAYER", "VEGAS_ODDS"]]`. -/
def odds_cols : List Col := [⟨"PLAYER", .oddsTab⟩, ⟨"VEGAS_ODDS", .oddsTab⟩]

/-- Cut-feature subset merged on PLAYER. -/
def cuts_cols : List Col :=
  [⟨"PLAYER", .cutsFeat⟩, ⟨"CUT_PERCENTAGE", .cutsFeat⟩,
   ⟨"FEDEX_CUP_POINTS", .cutsFeat⟩, ⟨"form_density", .cutsFeat⟩,
   ⟨"CONSECUTIVE_CUTS", .cutsFeat⟩]

/-- Recent-form subset merged on PLAYER. -/
def recent_cols : List Col :=
  [⟨"PLAYER", .recentFeat⟩, ⟨"RECENT_FORM", .recentFeat⟩, ⟨"adj_form", .recentFeat⟩]

/-- Course-history subset merged on PLAYER. -/
def course_cols : List Col :=
  [⟨"PLAYER", .courseFeat⟩, ⟨"COURSE_HISTORY", .courseFeat⟩, ⟨"adj_ch", .courseFeat⟩]

/-- The per-event merge chain of `build_training_rows`; each feature merge
runs only when the event's date key is present in the dictionary. -/
def training_cols (hasCuts hasRecent hasCourse : Bool) : List Col :=
  let t1 := merge_cols tournament_cols stats_cols ["SEASON", "PLAYER"]
  let t2 := merge_cols t1 odds_cols ["PLAYER"]
  let t3 := if hasCuts then merge_cols t2 cuts_cols ["PLAYER"] else t2
  let t4 := if hasRecent then merge_cols t3 recent_cols ["PLAYER"] else t3
  if hasCourse then merge_cols t4 course_cols ["PLAYER"] else t4

/-- The post-concat cleanup: drop the listed columns when present, rename the
rolling `FEDEX_CUP_POINTS_y` to the canonical name when present, and append
the derived `TOP_20` label. -/
def finalize_training_cols (cols : List Col) : List Col :=
  let dropped := cols.filter (fun c =>
    !(["ROUNDS:1", "ROUNDS:2", "ROUNDS:3", "ROUNDS:4", "OFFICIAL_MONEY",
       "FEDEX_CUP_POINTS_x", "TOURN_ID"].contains c.name))
  let renamed :=
    if (dropped.map (fun c => c.name)).contains "FEDEX_CUP_POINTS_y" then
      dropped.map (fun c =>
        if c.name = "FEDEX_CUP_POINTS_y" then ⟨"FEDEX_CUP_POINTS", c.src⟩ else c)
    else dropped
  renamed ++ [⟨"TOP_20", .label⟩]

/-- C6 counterexample: the claim says every training matrix drops the
result-time `FEDEX_CUP_POINTS` and keeps the rolling value under the
canonical name.  When an event's date key is absent from the `cuts`
dictionary (for example a caller-supplied empty dictionary), no suffixing
happens and the surviving `FEDEX_CUP_POINTS` column is the result-time one
from the `tournaments` table. -/
theorem fedex_column_without_cuts_merge :
    (finalize_training_cols (training_cols false false false)).filter
        (fun c => decide (c.name = "FEDEX_CUP_POINTS"))
      = [⟨"FEDEX_CUP_POINTS", ColSrc.tournRes⟩] := by
  decide

/-- C6 (amended): whenever the event's cut/streak feature table is merged
(its date key present in `cuts` — the collision case the spec describes), the
result-time points column becomes `FEDEX_CUP_POINTS_x` and is dropped, and
the single column surviving under the canonical name `FEDEX_CUP_POINTS` is
the rolling-window sum from the cut/streak feature table, regardless of the
other two feature merges. -/
theorem fedex_column_resolution (hasRecent hasCourse : Bool) :
    (finalize_training_cols (training_cols true hasRecent hasCourse)).filter
        (fun c => decide (c.name = "FEDEX_CUP_POINTS")
          || decide (c.name = "FEDEX_CUP_POINTS_x")
          || decide (c.name = "FEDEX_CUP_POINTS_y"))
      = [⟨"FEDEX_CUP_POINTS", ColSrc.cutsFeat⟩]
  ∧ (finalize_training_cols (training_cols true hasRecent hasCourse)).all
        (fun c => !(decide (c.src = ColSrc.tournRes)
          && decide (c.name = "FEDEX_CUP_POINTS"))) = true := by
  cases hasRecent <;> cases hasCourse <;> exact ⟨by decide, by decide⟩

end PgaDk
